import Mathlib

/-!
Desktop shell script: context-menu positioner and window manager

A shallow embedding of `src/script.js`.

Modelling conventions

* Lengths and coordinates written to `el.style.*` are represented by the
  number they denote, as exact rationals (`ℚ`); pointer coordinates
  (`clientX`, `clientY`) are integers. An assignment of a negative length to
  `style.width` or `style.height` is discarded by the style setter
  (`setLength`); `left`, `top` and `zIndex` accept every value.
* `Math.random()` and the measurements read from the render surface
  (`getBoundingClientRect`, `window.innerWidth`, `window.innerHeight`) are
  explicit arguments of the handlers that read them.
* A window element is identified by its creation index: the `n`-th call of
  `openWindow` yields the window stored at index `n` of `WM.windows`.
  Elements removed from the document stay in that list with
  `attached = false`, because their closures and the document-level
  listeners they registered stay alive.
-/

namespace Shell

/-! ## Context menu (script.js lines 35-75) -/

/-- Measurements read by `positionElementInViewport`: the element's rendered
size and the viewport size. -/
structure Surface where
  width : ℚ
  height : ℚ
  innerWidth : ℚ
  innerHeight : ℚ
deriving DecidableEq

/-- The pair `(left, top)` that `positionElementInViewport(el, x, y)` writes to
`el.style.left` and `el.style.top` (script.js lines 65-75). -/
def positionElementInViewport (m : Surface) (x y : ℚ) : ℚ × ℚ :=
  let left := x
  let top := y
  let left := if left + m.width > m.innerWidth then m.innerWidth - m.width - 10 else left
  let top := if top + m.height > m.innerHeight then m.innerHeight - m.height - 10 else top
  (left, top)

/-- State of the shared context menu: the script variable `menuOpen`, whether
`ctx.style.display` is `"block"`, and the inline `left`/`top` of `ctx`
(`none` while the script has not written them). -/
structure Menu where
  menuOpen : Bool
  displayBlock : Bool
  left : Option ℚ
  top : Option ℚ
deriving DecidableEq

/-- Menu state when the script has been loaded: `let menuOpen = false`. -/
def Menu.init : Menu :=
  { menuOpen := false, displayBlock := false, left := none, top := none }

/-- The function `showMenu(x, y)` (lines 52-57); `m` is what
`positionElementInViewport` measures during the call. -/
def showMenu (m : Surface) (x y : ℚ) (c : Menu) : Menu :=
  let c := { c with displayBlock := true }
  let c := { c with menuOpen := true }
  let p := positionElementInViewport m x y
  { c with left := some p.1, top := some p.2 }

/-- The function `hideMenu()` (lines 59-63). -/
def hideMenu (c : Menu) : Menu :=
  { c with displayBlock := false, menuOpen := false }

/-- The document `mousedown` listener (lines 46-50); `inside` tells whether the
event target lies inside the `.context-menu` element. -/
def documentMouseDown (inside : Bool) (c : Menu) : Menu :=
  if c.menuOpen && !inside then hideMenu c else c

/-- Operations on the context menu. -/
inductive MenuOp where
  | show (m : Surface) (x y : ℚ)
  | hide
  | outsideDown
deriving DecidableEq

/-- Effect of one menu operation. -/
def MenuOp.apply : MenuOp → Menu → Menu
  | .show m x y, c => showMenu m x y c
  | .hide, c => hideMenu c
  | .outsideDown, c => documentMouseDown false c

/-- Runs a sequence of menu operations, oldest first. -/
def runMenu (c : Menu) : List MenuOp → Menu
  | [] => c
  | op :: ops => runMenu (op.apply c) ops

/-- Whether an operation writes the menu state when run in state `c`:
`showMenu` and `hideMenu` always do, the outside pointer-down only while the
menu is open. -/
def MenuOp.changes : MenuOp → Menu → Bool
  | .show _ _ _, _ => true
  | .hide, _ => true
  | .outsideDown, c => c.menuOpen

/-- The last operation of the sequence that wrote the menu state; `last` is
the answer for the operations run before. -/
def lastChanging (c : Menu) (last : Option MenuOp) : List MenuOp → Option MenuOp
  | [] => last
  | op :: ops => lastChanging (op.apply c) (if op.changes c then some op else last) ops

/-- The position a `show` operation asks for after clamping; `none` for the
other operations. -/
def MenuOp.shownAt : MenuOp → Option (ℚ × ℚ)
  | .show m x y => some (positionElementInViewport m x y)
  | _ => none

/-- The most recent `show` operation of the sequence; `last` is the answer
for the operations run before. -/
def lastShow (last : Option MenuOp) : List MenuOp → Option MenuOp
  | [] => last
  | .show m x y :: ops => lastShow (some (.show m x y)) ops
  | _ :: ops => lastShow last ops

/-- Invariant of the menu: state `c`, last state-writing operation `lc` and
most recent show `ls` agree. -/
def MenuInv (c : Menu) (lc ls : Option MenuOp) : Prop :=
  c.displayBlock = c.menuOpen ∧
  (c.menuOpen = true ↔ ∃ m x y, lc = some (.show m x y)) ∧
  (∀ m x y, lc = some (.show m x y) →
    ls = lc ∧ c.left = some (positionElementInViewport m x y).1 ∧
      c.top = some (positionElementInViewport m x y).2)

/-! ## Window system (script.js lines 119-201) -/

/-- Value of `w.dataset.max`: never written, `"0"` or `"1"`. -/
inductive DataMax where
  | unset
  | zero
  | one
deriving DecidableEq

/-- One window element `w` together with the closure variables that
`makeDraggable(w)` allocates for it. `width`/`height` are the inline style
values (`none` while the script has not written them). -/
structure Window where
  left : ℚ
  top : ℚ
  width : Option ℚ
  height : Option ℚ
  zIndex : Int
  displayNone : Bool
  dataMax : DataMax
  attached : Bool
  dragging : Bool
  sx : Int
  sy : Int
  lx : Int
  ly : Int
deriving DecidableEq

/-- State of the window system: the counter `z`, every window created so far
(in creation order) and whether `document.body.style.userSelect` is
`"none"`. -/
structure WM where
  z : Int
  windows : List Window
  userSelectNone : Bool
deriving DecidableEq

/-- State when the script has been loaded: `let z = 50`, no window. -/
def WM.init : WM :=
  { z := 50, windows := [], userSelectNone := false }

/-- Applies `f` to the element at index `i`; lists shorter than `i + 1` are
returned unchanged. -/
def modifyAt (f : Window → Window) : Nat → List Window → List Window
  | _, [] => []
  | 0, w :: ws => f w :: ws
  | i + 1, w :: ws => w :: modifyAt f i ws

/-- The integer `parseInt(v + "px") || 0` for a length `v` printed in decimal
form: the digits before the decimal point, i.e. `v` truncated toward zero. -/
def parseIntPx (v : ℚ) : Int :=
  if 0 ≤ v then ⌊v⌋ else -⌊-v⌋

/-- The function `makeDraggable(el)` (lines 174-201) allocates the closure
variables `dragging`, `sx`, `sy`, `lx`, `ly` of the element; the three
listeners it registers are `barMouseDown`, `dragMove` and `documentMouseUp`
below. -/
def makeDraggable (el : Window) : Window :=
  { el with dragging := false, sx := 0, sy := 0, lx := 0, ly := 0 }

/-- The function `openWindow` (lines 121-172): `r1` and `r2` are the two
results of `Math.random()`. The new element is appended to the document and
passed to `makeDraggable`. The title and content markup is not represented. -/
def openWindow (r1 r2 : ℚ) (s : WM) : WM :=
  let z := s.z + 1
  let w : Window :=
    { left := 150 + r1 * 200
      top := 100 + r2 * 120
      width := none
      height := none
      zIndex := z
      displayNone := false
      dataMax := .unset
      attached := true
      dragging := false
      sx := 0
      sy := 0
      lx := 0
      ly := 0 }
  { s with z := z, windows := s.windows ++ [makeDraggable w] }

/-- Click listener of the close button (line 143): `w.remove()`. -/
def closeClick (i : Nat) (s : WM) : WM :=
  { s with windows := modifyAt (fun w => { w with attached := false }) i s.windows }

/-- Click listener of the minimise button (lines 147-149). -/
def minClick (i : Nat) (s : WM) : WM :=
  { s with windows := modifyAt (fun w => { w with displayNone := true }) i s.windows }

/-- The assignment `w.style.width = v + "px"` (likewise `height`): the style
setter stores a non-negative length and discards a negative one, leaving the
previous inline value `old` in place. -/
def setLength (old : Option ℚ) (v : ℚ) : Option ℚ :=
  if 0 ≤ v then some v else old

/-- Body of the click listener of the maximise button (lines 153-166) for
viewport `vw` x `vh`. `left` and `top` accept every length; `width` and
`height` go through `setLength`. -/
def toggleMax (vw vh : ℚ) (w : Window) : Window :=
  if w.dataMax = .one then
    { w with width := setLength w.width 700, height := setLength w.height 420,
             dataMax := .zero }
  else
    { w with left := 10, top := 10, width := setLength w.width (vw - 20),
             height := setLength w.height (vh - 20), dataMax := .one }

/-- Click listener of the maximise button of window `i`. -/
def maxClick (i : Nat) (vw vh : ℚ) (s : WM) : WM :=
  { s with windows := modifyAt (toggleMax vw vh) i s.windows }

/-- The `mousedown` listener of window `i` (line 169): `w.style.zIndex = ++z`.
No listener exists for an index that no window has. -/
def windowMouseDown (i : Nat) (s : WM) : WM :=
  if i < s.windows.length then
    let z := s.z + 1
    { s with z := z, windows := modifyAt (fun w => { w with zIndex := z }) i s.windows }
  else s

/-- The `mousedown` listener of the title bar of window `i` (lines 182-189)
for a press at `(cx, cy)`. -/
def barMouseDown (i : Nat) (cx cy : Int) (s : WM) : WM :=
  if i < s.windows.length then
    { s with
      windows := modifyAt (fun w =>
        { w with dragging := true, sx := cx, sy := cy,
                 lx := parseIntPx w.left, ly := parseIntPx w.top }) i s.windows
      userSelectNone := true }
  else s

/-- What the `mousemove` listener registered for one window does (lines
191-195) for a pointer at `(cx, cy)`. -/
def dragMove (cx cy : Int) (w : Window) : Window :=
  if !w.dragging then w
  else { w with left := ((w.lx + (cx - w.sx) : Int) : ℚ), top := ((w.ly + (cy - w.sy) : Int) : ℚ) }

/-- A `mousemove` on the document: the listener of every window runs. -/
def documentMouseMove (cx cy : Int) (s : WM) : WM :=
  { s with windows := s.windows.map (dragMove cx cy) }

/-- A `mouseup` on the document (lines 197-200): the listener of every window
runs; without any window no listener exists. -/
def documentMouseUp (s : WM) : WM :=
  { s with
    windows := s.windows.map (fun w => { w with dragging := false })
    userSelectNone := if s.windows.isEmpty then s.userSelectNone else false }

/-- Input events of the window system. A `mousedown` inside a title bar runs
the title-bar listener and then, bubbling, the listener of the window. -/
inductive WEvent where
  | create (r1 r2 : ℚ)
  | windowDown (i : Nat)
  | barDown (i : Nat) (cx cy : Int)
  | close (i : Nat)
  | minimise (i : Nat)
  | toggleMaximise (i : Nat) (vw vh : ℚ)
  | move (cx cy : Int)
  | up
deriving DecidableEq

/-- Effect of one event. -/
def step (s : WM) : WEvent → WM
  | .create r1 r2 => openWindow r1 r2 s
  | .windowDown i => windowMouseDown i s
  | .barDown i cx cy => windowMouseDown i (barMouseDown i cx cy s)
  | .close i => closeClick i s
  | .minimise i => minClick i s
  | .toggleMaximise i vw vh => maxClick i vw vh s
  | .move cx cy => documentMouseMove cx cy s
  | .up => documentMouseUp s

/-- Runs a sequence of events, oldest first. -/
def run (s : WM) : List WEvent → WM
  | [] => s
  | e :: es => run (step s e) es

/-- The window that event `e` creates or brings to the front in state `s`,
if any. -/
def touched (s : WM) : WEvent → Option Nat
  | .create _ _ => some s.windows.length
  | .windowDown i => if i < s.windows.length then some i else none
  | .barDown i _ _ => if i < s.windows.length then some i else none
  | _ => none

/-- The window most recently created or brought to the front during the
sequence; `last` is the answer for the events run before. -/
def lastTouched (s : WM) (last : Option Nat) : List WEvent → Option Nat
  | [] => last
  | e :: es => lastTouched (step s e) ((touched s e).orElse fun _ => last) es

/-- Number of windows whose `dragging` variable is `true`. -/
def draggingCount (s : WM) : Nat :=
  s.windows.countP (fun w => w.dragging)

/-- Number of positions at which the two lists hold windows with different
`left` or `top`. -/
def movedCount : List Window → List Window → Nat
  | a :: as, b :: bs => (if a.left = b.left ∧ a.top = b.top then 0 else 1) + movedCount as bs
  | _, _ => 0

/-- Single-pointer discipline of an event sequence: no title-bar press while
the button is already down (`down`), a release in between. -/
def singlePointer (down : Bool) : List WEvent → Bool
  | [] => true
  | .barDown _ _ _ :: es => !down && singlePointer true es
  | .up :: es => singlePointer false es
  | _ :: es => singlePointer down es

/-- The list of `zIndex` values, in creation order. -/
def zIndices (s : WM) : List Int :=
  s.windows.map (fun w => w.zIndex)

/-- Stacking invariant for counter `z`, `zIndex` values `zs` and most recently
touched window `t`: `t` exists, holds the value `z`, and every other window
holds a smaller value. -/
def ZInv (z : Int) (zs : List Int) (t : Option Nat) : Prop :=
  (∀ i, t = some i → i < zs.length) ∧
  (∀ j v, zs[j]? = some v → (t = some j → v = z) ∧ (t ≠ some j → v < z))

/-! ## Theorems: viewport clamp -/

/-- C1: `positionElementInViewport` writes `left = vw - w - 10` when
`x + w > vw` and `left = x` otherwise, `top = vh - h - 10` when `y + h > vh`
and `top = y` otherwise; `showMenu` stores exactly that pair; for viewport
1000x700 and size 200x100 the anchor (950, 650) gives (790, 590) and the
anchor (10, 10) stays (10, 10). -/
theorem positionElementInViewport_clamp :
    (∀ (w h vw vh x y : ℚ),
      positionElementInViewport ⟨w, h, vw, vh⟩ x y =
        (if x + w > vw then vw - w - 10 else x, if y + h > vh then vh - h - 10 else y)) ∧
    (∀ (m : Surface) (x y : ℚ) (c : Menu),
      (showMenu m x y c).left = some (positionElementInViewport m x y).1 ∧
      (showMenu m x y c).top = some (positionElementInViewport m x y).2) ∧
    positionElementInViewport ⟨200, 100, 1000, 700⟩ 950 650 = (790, 590) ∧
    positionElementInViewport ⟨200, 100, 1000, 700⟩ 10 10 = (10, 10) := by
  refine ⟨fun w h vw vh x y => rfl, fun m x y c => ⟨rfl, rfl⟩, ?_, ?_⟩
  · norm_num [positionElementInViewport]
  · norm_num [positionElementInViewport]

/-- C2: when the element plus the margin of 10 fits in the viewport and the
requested anchor is non-negative, the position written by
`positionElementInViewport` keeps the rectangle inside the viewport. -/
theorem positionElementInViewport_inside (w h vw vh x y : ℚ)
    (hw : w + 10 ≤ vw) (hh : h + 10 ≤ vh) (hx : 0 ≤ x) (hy : 0 ≤ y) :
    0 ≤ (positionElementInViewport ⟨w, h, vw, vh⟩ x y).1 ∧
    (positionElementInViewport ⟨w, h, vw, vh⟩ x y).1 + w ≤ vw ∧
    0 ≤ (positionElementInViewport ⟨w, h, vw, vh⟩ x y).2 ∧
    (positionElementInViewport ⟨w, h, vw, vh⟩ x y).2 + h ≤ vh := by
  simp only [positionElementInViewport]
  refine ⟨?_, ?_, ?_, ?_⟩
  · split_ifs <;> linarith
  · split_ifs <;> linarith
  · split_ifs <;> linarith
  · split_ifs <;> linarith

/-- Witness for C2: viewport 1000x700, size 200x100, anchor (950, 650). -/
theorem positionElementInViewport_inside_witness :
    0 ≤ (positionElementInViewport ⟨200, 100, 1000, 700⟩ 950 650).1 ∧
    (positionElementInViewport ⟨200, 100, 1000, 700⟩ 950 650).1 + 200 ≤ 1000 ∧
    0 ≤ (positionElementInViewport ⟨200, 100, 1000, 700⟩ 950 650).2 ∧
    (positionElementInViewport ⟨200, 100, 1000, 700⟩ 950 650).2 + 100 ≤ 700 :=
  positionElementInViewport_inside 200 100 1000 700 950 650
    (by norm_num) (by norm_num) (by norm_num) (by norm_num)

/-- C3: applying `positionElementInViewport` to its own output, with the same
size and viewport, returns that output unchanged (for sizes `w, h ≥ 0`). -/
theorem positionElementInViewport_idempotent (w h vw vh x y : ℚ)
    (hw : 0 ≤ w) (hh : 0 ≤ h) :
    positionElementInViewport ⟨w, h, vw, vh⟩
        (positionElementInViewport ⟨w, h, vw, vh⟩ x y).1
        (positionElementInViewport ⟨w, h, vw, vh⟩ x y).2 =
      positionElementInViewport ⟨w, h, vw, vh⟩ x y := by
  have _hw := hw
  have _hh := hh
  simp only [positionElementInViewport]
  refine Prod.ext ?_ ?_
  · show (if (if x + w > vw then vw - w - 10 else x) + w > vw then vw - w - 10
        else (if x + w > vw then vw - w - 10 else x)) = _
    by_cases h1 : x + w > vw
    · rw [if_pos h1, if_neg (by linarith)]
    · rw [if_neg h1, if_neg h1]
  · show (if (if y + h > vh then vh - h - 10 else y) + h > vh then vh - h - 10
        else (if y + h > vh then vh - h - 10 else y)) = _
    by_cases h1 : y + h > vh
    · rw [if_pos h1, if_neg (by linarith)]
    · rw [if_neg h1, if_neg h1]

/-- Witness for C3: viewport 1000x700, size 200x100, anchor (950, 650). -/
theorem positionElementInViewport_idempotent_witness :
    (0 : ℚ) ≤ 200 ∧ (0 : ℚ) ≤ 100 ∧
    positionElementInViewport ⟨200, 100, 1000, 700⟩
        (positionElementInViewport ⟨200, 100, 1000, 700⟩ 950 650).1
        (positionElementInViewport ⟨200, 100, 1000, 700⟩ 950 650).2 =
      positionElementInViewport ⟨200, 100, 1000, 700⟩ 950 650 :=
  ⟨by norm_num, by norm_num,
    positionElementInViewport_idempotent 200 100 1000 700 950 650 (by norm_num) (by norm_num)⟩

/-! ## Theorems: context menu -/

/-- One operation preserves the menu invariant. -/
theorem menuInv_apply {c : Menu} {lc ls : Option MenuOp} (h : MenuInv c lc ls)
    (op : MenuOp) :
    MenuInv (op.apply c) (if op.changes c then some op else lc)
      (match op with
        | .show m x y => some (.show m x y)
        | _ => ls) := by
  obtain ⟨hd, ho, hp⟩ := h
  cases op with
  | «show» m x y =>
    refine ⟨rfl, ?_, ?_⟩
    · simp [MenuOp.apply, MenuOp.changes, showMenu]
    · intro m1 x1 y1 he
      simp only [MenuOp.changes, if_true, Option.some.injEq, MenuOp.show.injEq] at he
      obtain ⟨rfl, rfl, rfl⟩ := he
      simp [MenuOp.apply, MenuOp.changes, showMenu]
  | hide =>
    refine ⟨rfl, ?_, ?_⟩
    · simp [MenuOp.apply, MenuOp.changes, hideMenu]
    · intro m1 x1 y1 he
      simp [MenuOp.changes] at he
  | outsideDown =>
    by_cases hopen : c.menuOpen = true
    · refine ⟨?_, ?_, ?_⟩
      · simp [MenuOp.apply, documentMouseDown, hopen, hideMenu]
      · simp [MenuOp.apply, MenuOp.changes, documentMouseDown, hopen, hideMenu]
      · intro m1 x1 y1 he
        simp [MenuOp.changes, hopen] at he
    · have hclosed : c.menuOpen = false := by simpa using hopen
      have happ : MenuOp.outsideDown.apply c = c := by
        simp [MenuOp.apply, documentMouseDown, hclosed]
      have hch : MenuOp.outsideDown.changes c = false := by
        simp [MenuOp.changes, hclosed]
      rw [happ, hch]
      exact ⟨hd, ho, hp⟩

/-- The invariant holds after every run, for the tracked last operations. -/
theorem menuInv_run (ops : List MenuOp) :
    ∀ (c : Menu) (lc ls : Option MenuOp), MenuInv c lc ls →
      MenuInv (runMenu c ops) (lastChanging c lc ops) (lastShow ls ops) := by
  induction ops with
  | nil => intro c lc ls h; exact h
  | cons op ops ih =>
    intro c lc ls h
    have h1 := menuInv_apply h op
    cases op with
    | «show» m x y => exact ih _ _ _ h1
    | hide => exact ih _ _ _ h1
    | outsideDown => exact ih _ _ _ h1

/-- The invariant holds in the initial state. -/
theorem menuInv_init : MenuInv Menu.init none none := by
  refine ⟨rfl, ?_, ?_⟩
  · simp [Menu.init]
  · intro m x y he
    simp at he

/-- Running a concatenation of operation sequences. -/
theorem runMenu_append (c : Menu) (ops ops2 : List MenuOp) :
    runMenu c (ops ++ ops2) = runMenu (runMenu c ops) ops2 := by
  induction ops generalizing c with
  | nil => rfl
  | cons op ops ih => exact ih _

/-- C8: after every finite sequence of `showMenu`, `hideMenu` and outside
pointer-down operations from the initial state, the menu is open exactly when
the last state-writing operation was a `showMenu`; that operation is then the
most recent `showMenu` call and the displayed position is the clamp of its
anchor; a `showMenu` while open changes only the position; an outside
pointer-down followed by `showMenu(a)` ends open at the clamp of `a`. -/
theorem single_menu_invariant (ops : List MenuOp) :
    ((runMenu Menu.init ops).menuOpen = true ↔
      ∃ m x y, lastChanging Menu.init none ops = some (.show m x y)) ∧
    ((runMenu Menu.init ops).displayBlock = (runMenu Menu.init ops).menuOpen) ∧
    (∀ m x y, lastChanging Menu.init none ops = some (.show m x y) →
      lastShow none ops = some (.show m x y) ∧
      (runMenu Menu.init ops).left = some (positionElementInViewport m x y).1 ∧
      (runMenu Menu.init ops).top = some (positionElementInViewport m x y).2) ∧
    (∀ m x y, (runMenu Menu.init ops).menuOpen = true →
      showMenu m x y (runMenu Menu.init ops) =
        { runMenu Menu.init ops with
          left := some (positionElementInViewport m x y).1
          top := some (positionElementInViewport m x y).2 }) ∧
    (∀ m x y,
      runMenu Menu.init (ops ++ [.outsideDown, .show m x y]) =
        { menuOpen := true
          displayBlock := true
          left := some (positionElementInViewport m x y).1
          top := some (positionElementInViewport m x y).2 }) := by
  have h := menuInv_run ops Menu.init none none menuInv_init
  obtain ⟨hd, ho, hp⟩ := h
  refine ⟨ho, hd, ?_, ?_, ?_⟩
  · intro m x y he
    have h3 := hp m x y he
    exact ⟨h3.1.trans he, h3.2.1, h3.2.2⟩
  · intro m x y hopen
    have hdb : (runMenu Menu.init ops).displayBlock = true := hd.trans hopen
    simp only [showMenu]
    rw [← hdb.symm, ← hopen.symm]
  · intro m x y
    rw [runMenu_append]
    simp [runMenu, MenuOp.apply, showMenu]

/-! ## Lemmas about `modifyAt` -/

theorem length_modifyAt (f : Window → Window) (i : Nat) (l : List Window) :
    (modifyAt f i l).length = l.length := by
  induction l generalizing i with
  | nil => cases i <;> rfl
  | cons w ws ih =>
    cases i with
    | zero => rfl
    | succ i => simp [modifyAt, ih]

theorem getElem?_modifyAt_self (f : Window → Window) (i : Nat) (l : List Window) :
    (modifyAt f i l)[i]? = (l[i]?).map f := by
  induction l generalizing i with
  | nil => cases i <;> rfl
  | cons w ws ih =>
    cases i with
    | zero => simp [modifyAt]
    | succ i => simpa [modifyAt] using ih i

theorem getElem?_modifyAt_of_ne (f : Window → Window) {i j : Nat} (h : j ≠ i)
    (l : List Window) : (modifyAt f i l)[j]? = l[j]? := by
  induction l generalizing i j with
  | nil => cases i <;> rfl
  | cons w ws ih =>
    cases i with
    | zero =>
      cases j with
      | zero => exact absurd rfl h
      | succ j => rfl
    | succ i =>
      cases j with
      | zero => simp [modifyAt]
      | succ j =>
        have hji : j ≠ i := fun e => h (by rw [e])
        simpa [modifyAt] using ih hji

theorem modifyAt_modifyAt (f : Window → Window) (hf : ∀ w, f (f w) = f w) (i : Nat)
    (l : List Window) : modifyAt f i (modifyAt f i l) = modifyAt f i l := by
  induction l generalizing i with
  | nil => cases i <;> rfl
  | cons w ws ih =>
    cases i with
    | zero => simp [modifyAt, hf]
    | succ i => simp [modifyAt, ih]

theorem modifyAt_eq_self (f : Window → Window) (i : Nat) (l : List Window)
    (h : ∀ w, l[i]? = some w → f w = w) : modifyAt f i l = l := by
  induction l generalizing i with
  | nil => cases i <;> rfl
  | cons w ws ih =>
    cases i with
    | zero =>
      have := h w (by simp)
      simp [modifyAt, this]
    | succ i =>
      have := ih i (fun w1 hw1 => h w1 (by simpa using hw1))
      simp [modifyAt, this]

/-! ## Theorems: close, maximise -/

/-- C10: closing window `i` twice leaves the whole state (all windows with
their positions, sizes and `zIndex`, and the counter `z`) as closing it once
does; closing a window that is no longer attached, or that never existed,
leaves the state unchanged. `closeClick` is a total function: no error
arises. -/
theorem close_idempotent (s : WM) (i : Nat) :
    closeClick i (closeClick i s) = closeClick i s ∧
    (closeClick i s).z = s.z ∧
    ((∀ w, s.windows[i]? = some w → w.attached = false) → closeClick i s = s) := by
  refine ⟨?_, rfl, ?_⟩
  · simp only [closeClick]
    congr 1
    exact modifyAt_modifyAt (fun w : Window => { w with attached := false }) (fun w => rfl) i
      s.windows
  · intro h
    have hm : modifyAt (fun w => { w with attached := false }) i s.windows = s.windows := by
      apply modifyAt_eq_self
      intro w hw
      have := h w hw
      cases w
      simp_all
    simp only [closeClick, hm]

/-- Witness for C10: a window is created, closed, and closed again. -/
theorem close_idempotent_witness :
    (∀ w, (run WM.init [.create 0 0, .close 0]).windows[0]? = some w → w.attached = false) ∧
    closeClick 0 (run WM.init [.create 0 0, .close 0]) = run WM.init [.create 0 0, .close 0] :=
  have h : ∀ w, (run WM.init [.create 0 0, .close 0]).windows[0]? = some w →
      w.attached = false := by
    intro w hw
    simp [run, step, openWindow, makeDraggable, closeClick, modifyAt, WM.init] at hw
    subst hw
    rfl
  ⟨h, (close_idempotent (run WM.init [.create 0 0, .close 0]) 0).2.2 h⟩

/-- The window at index `i` after a click on its maximise button. -/
theorem getElem?_maxClick (s : WM) (i : Nat) (vw vh : ℚ) :
    (maxClick i vw vh s).windows[i]? = (s.windows[i]?).map (toggleMax vw vh) :=
  getElem?_modifyAt_self _ i s.windows

/-- The window appended by `openWindow`. -/
theorem getElem?_openWindow (r1 r2 : ℚ) (s : WM) :
    ∃ w, (openWindow r1 r2 s).windows[s.windows.length]? = some w ∧
      w.left = 150 + r1 * 200 ∧ w.top = 100 + r2 * 120 ∧ w.zIndex = s.z + 1 ∧
      w.dataMax = .unset ∧ w.dragging = false ∧ w.attached = true := by
  simp [openWindow, makeDraggable]

/-- The constants 700 and 420 are stored by the style setter. -/
theorem setLength_of_nonneg (old : Option ℚ) (v : ℚ) (hv : 0 ≤ v) :
    setLength old v = some v := by
  simp [setLength, hv]

/-- A negative length is discarded by the style setter. -/
theorem setLength_of_neg (old : Option ℚ) (v : ℚ) (hv : v < 0) : setLength old v = old := by
  simp [setLength, not_le.mpr hv]

/-- The maximise branch of the click listener, taken when `dataset.max` is
not `"1"`. -/
theorem toggleMax_of_normal (vw vh : ℚ) (w : Window) (hn : w.dataMax ≠ .one) :
    toggleMax vw vh w =
      { w with left := 10, top := 10, width := setLength w.width (vw - 20),
               height := setLength w.height (vh - 20), dataMax := .one } := by
  simp [toggleMax, hn]

/-- The restore branch of the click listener, taken when `dataset.max` is
`"1"`: it writes 700x420 and `"0"` and nothing else. -/
theorem toggleMax_of_maximised (vw vh : ℚ) (w : Window) (hm : w.dataMax = .one) :
    toggleMax vw vh w = { w with width := some 700, height := some 420, dataMax := .zero } := by
  have h7 : setLength w.width 700 = some 700 := setLength_of_nonneg _ _ (by norm_num)
  have h4 : setLength w.height 420 = some 420 := setLength_of_nonneg _ _ (by norm_num)
  simp [toggleMax, hm, h7, h4]

/-- C6: for a window in the Normal state (`dataset.max` is not `"1"`), two
consecutive clicks on the maximise button, under any viewports, leave it in
the Normal state with size 700x420 and with the position it had before the
second click, which is the maximised origin (10, 10); the position held
before the first click is not restored. -/
theorem maximise_round_trip (s : WM) (i : Nat) (w : Window) (vw vh vw2 vh2 : ℚ)
    (hw : s.windows[i]? = some w) (hn : w.dataMax ≠ .one) :
    (maxClick i vw vh s).windows[i]? = some (toggleMax vw vh w) ∧
    (maxClick i vw2 vh2 (maxClick i vw vh s)).windows[i]? =
      some (toggleMax vw2 vh2 (toggleMax vw vh w)) ∧
    (toggleMax vw vh w).dataMax = .one ∧
    (toggleMax vw2 vh2 (toggleMax vw vh w)).dataMax = .zero ∧
    (toggleMax vw2 vh2 (toggleMax vw vh w)).width = some 700 ∧
    (toggleMax vw2 vh2 (toggleMax vw vh w)).height = some 420 ∧
    (toggleMax vw2 vh2 (toggleMax vw vh w)).left = (toggleMax vw vh w).left ∧
    (toggleMax vw2 vh2 (toggleMax vw vh w)).top = (toggleMax vw vh w).top ∧
    (toggleMax vw2 vh2 (toggleMax vw vh w)).left = 10 ∧
    (toggleMax vw2 vh2 (toggleMax vw vh w)).top = 10 ∧
    (¬ (w.left = 10 ∧ w.top = 10) →
      ¬ ((toggleMax vw2 vh2 (toggleMax vw vh w)).left = w.left ∧
          (toggleMax vw2 vh2 (toggleMax vw vh w)).top = w.top)) := by
  have h1 : (maxClick i vw vh s).windows[i]? = some (toggleMax vw vh w) := by
    rw [getElem?_maxClick, hw]; rfl
  have h2 : (maxClick i vw2 vh2 (maxClick i vw vh s)).windows[i]? =
      some (toggleMax vw2 vh2 (toggleMax vw vh w)) := by
    rw [getElem?_maxClick, h1]; rfl
  have e1 := toggleMax_of_normal vw vh w hn
  have hm : (toggleMax vw vh w).dataMax = .one := by rw [e1]
  have hl : (toggleMax vw vh w).left = 10 := by rw [e1]
  have ht : (toggleMax vw vh w).top = 10 := by rw [e1]
  have e2 := toggleMax_of_maximised vw2 vh2 (toggleMax vw vh w) hm
  have hl2 : (toggleMax vw2 vh2 (toggleMax vw vh w)).left = (toggleMax vw vh w).left := by
    rw [e2]
  have ht2 : (toggleMax vw2 vh2 (toggleMax vw vh w)).top = (toggleMax vw vh w).top := by
    rw [e2]
  refine ⟨h1, h2, hm, ?_, ?_, ?_, hl2, ht2, hl2.trans hl, ht2.trans ht, ?_⟩
  · rw [e2]
  · rw [e2]
  · rw [e2]
  · intro hne heq
    apply hne
    exact ⟨(heq.1.symm.trans (hl2.trans hl)), (heq.2.symm.trans (ht2.trans ht))⟩

/-- Witness for C6: a fresh window at (200, 130), viewport 1000x700. -/
theorem maximise_round_trip_witness :
    (toggleMax 1000 700 (toggleMax 1000 700
      { left := 200, top := 130, width := none, height := none, zIndex := 51,
        displayNone := false, dataMax := .unset, attached := true, dragging := false,
        sx := 0, sy := 0, lx := 0, ly := 0 })).width = some 700 ∧
    ¬ ((toggleMax 1000 700 (toggleMax 1000 700
      { left := 200, top := 130, width := none, height := none, zIndex := 51,
        displayNone := false, dataMax := .unset, attached := true, dragging := false,
        sx := 0, sy := 0, lx := 0, ly := 0 })).left = 200 ∧
      (toggleMax 1000 700 (toggleMax 1000 700
      { left := 200, top := 130, width := none, height := none, zIndex := 51,
        displayNone := false, dataMax := .unset, attached := true, dragging := false,
        sx := 0, sy := 0, lx := 0, ly := 0 })).top = 130) :=
  have h := maximise_round_trip (openWindow (1/4) (1/4) WM.init) 0
    { left := 200, top := 130, width := none, height := none, zIndex := 51,
      displayNone := false, dataMax := .unset, attached := true, dragging := false,
      sx := 0, sy := 0, lx := 0, ly := 0 } 1000 700 1000 700
    (by simp [openWindow, makeDraggable, WM.init]; norm_num) (by simp)
  ⟨h.2.2.2.2.1, h.2.2.2.2.2.2.2.2.2.2 (by norm_num)⟩

/-- C7, amended: for a window that is not Maximised (`dataset.max` unset or
`"0"`) and any viewport `vw` x `vh` with `vw ≥ 20` and `vh ≥ 20`, a click on
the maximise button sets the position to (10, 10), the size to
(`vw - 20`, `vh - 20`) and `dataset.max` to `"1"`, so the right and bottom
edges lie at `vw - 10` and `vh - 10`; a freshly created window has
`dataset.max` unset and a restored one has `"0"`, so both take this
transition. -/
theorem maximise_geometry (s : WM) (i : Nat) (w : Window) (vw vh : ℚ)
    (hw : s.windows[i]? = some w) (hn : w.dataMax ≠ .one)
    (hvw : 20 ≤ vw) (hvh : 20 ≤ vh) :
    (maxClick i vw vh s).windows[i]? = some (toggleMax vw vh w) ∧
    (toggleMax vw vh w).left = 10 ∧ (toggleMax vw vh w).top = 10 ∧
    (toggleMax vw vh w).width = some (vw - 20) ∧
    (toggleMax vw vh w).height = some (vh - 20) ∧
    (toggleMax vw vh w).dataMax = .one ∧
    (toggleMax vw vh w).left + (vw - 20) = vw - 10 ∧
    (toggleMax vw vh w).top + (vh - 20) = vh - 10 ∧
    (∀ (r1 r2 : ℚ) (s0 : WM), ∃ w0,
      (openWindow r1 r2 s0).windows[s0.windows.length]? = some w0 ∧ w0.dataMax = .unset ∧
      w0.dataMax ≠ .one) ∧
    (∀ (a b : ℚ) (w0 : Window), w0.dataMax = .one →
      (toggleMax a b w0).dataMax = .zero ∧ (toggleMax a b w0).dataMax ≠ .one) := by
  have h1 : (maxClick i vw vh s).windows[i]? = some (toggleMax vw vh w) := by
    rw [getElem?_maxClick, hw]; rfl
  have e1 := toggleMax_of_normal vw vh w hn
  have hwd : setLength w.width (vw - 20) = some (vw - 20) :=
    setLength_of_nonneg _ _ (by linarith)
  have hht : setLength w.height (vh - 20) = some (vh - 20) :=
    setLength_of_nonneg _ _ (by linarith)
  refine ⟨h1, ?_, ?_, ?_, ?_, ?_, ?_, ?_, ?_, ?_⟩
  · rw [e1]
  · rw [e1]
  · rw [e1]; exact hwd
  · rw [e1]; exact hht
  · rw [e1]
  · rw [e1]; show (10 : ℚ) + (vw - 20) = vw - 10; ring
  · rw [e1]; show (10 : ℚ) + (vh - 20) = vh - 10; ring
  · intro r1 r2 s0
    obtain ⟨w0, h0, _, _, _, hm, _⟩ := getElem?_openWindow r1 r2 s0
    exact ⟨w0, h0, hm, by rw [hm]; decide⟩
  · intro a b w0 h0
    rw [toggleMax_of_maximised a b w0 h0]
    exact ⟨rfl, fun h => DataMax.noConfusion h⟩

/-- Witness for C7: the first window created after loading, viewport
1000x700. -/
theorem maximise_geometry_witness :
    (maxClick 0 1000 700 (openWindow (1/4) (1/4) WM.init)).windows[0]? =
      some (toggleMax 1000 700
        { left := 200, top := 130, width := none, height := none, zIndex := 51,
          displayNone := false, dataMax := .unset, attached := true, dragging := false,
          sx := 0, sy := 0, lx := 0, ly := 0 }) ∧
    (toggleMax 1000 700
        { left := 200, top := 130, width := none, height := none, zIndex := 51,
          displayNone := false, dataMax := .unset, attached := true, dragging := false,
          sx := 0, sy := 0, lx := 0, ly := 0 }).width = some (1000 - 20) :=
  have h := maximise_geometry (openWindow (1/4) (1/4) WM.init) 0
    { left := 200, top := 130, width := none, height := none, zIndex := 51,
      displayNone := false, dataMax := .unset, attached := true, dragging := false,
      sx := 0, sy := 0, lx := 0, ly := 0 } 1000 700
    (by simp [openWindow, makeDraggable, WM.init]; norm_num) (by simp)
    (by norm_num) (by norm_num)
  ⟨h.1, h.2.2.2.1⟩

/-- Counterexample for C7 as stated: in a viewport of 10x5 the click on the
maximise button of a freshly created window assigns the widths `-10px` and
`-15px`, which the style setter discards; the window is marked Maximised and
moved to (10, 10), but its inline size stays unset instead of becoming
(`vw - 20`, `vh - 20`). -/
theorem maximise_small_viewport :
    (maxClick 0 10 5 (openWindow (1/4) (1/4) WM.init)).windows.map
        (fun w => (w.left, w.top, w.width, w.height, w.dataMax)) =
      [(10, 10, none, none, .one)] ∧
    ¬ ((maxClick 0 10 5 (openWindow (1/4) (1/4) WM.init)).windows.map
        (fun w => (w.width, w.height)) = [(some (10 - 20), some (5 - 20))]) := by
  have hw : setLength none ((10 : ℚ) - 20) = none := setLength_of_neg _ _ (by norm_num)
  have hh : setLength none ((5 : ℚ) - 20) = none := setLength_of_neg _ _ (by norm_num)
  constructor
  · simp [maxClick, openWindow, makeDraggable, WM.init, modifyAt, toggleMax, hw, hh]
  · simp [maxClick, openWindow, makeDraggable, WM.init, modifyAt, toggleMax, hw, hh]

/-! ## Theorems: stacking order -/

theorem map_zIndex_modifyAt (f : Window → Window) (hf : ∀ w, (f w).zIndex = w.zIndex)
    (i : Nat) (l : List Window) :
    (modifyAt f i l).map (fun w => w.zIndex) = l.map (fun w => w.zIndex) := by
  induction l generalizing i with
  | nil => cases i <;> rfl
  | cons w ws ih =>
    cases i with
    | zero => simp [modifyAt, hf]
    | succ i => simp [modifyAt, ih]

theorem map_zIndex_modifyAt_set (v : Int) (i : Nat) (l : List Window) :
    (modifyAt (fun w => { w with zIndex := v }) i l).map (fun w => w.zIndex) =
      (l.map (fun w => w.zIndex)).set i v := by
  induction l generalizing i with
  | nil => cases i <;> rfl
  | cons w ws ih =>
    cases i with
    | zero => simp [modifyAt]
    | succ i => simp [modifyAt, ih]

theorem toggleMax_zIndex (vw vh : ℚ) (w : Window) : (toggleMax vw vh w).zIndex = w.zIndex := by
  unfold toggleMax; split_ifs <;> rfl

theorem dragMove_zIndex (cx cy : Int) (w : Window) : (dragMove cx cy w).zIndex = w.zIndex := by
  unfold dragMove; split_ifs <;> rfl

theorem zIndices_barMouseDown (i : Nat) (cx cy : Int) (s : WM) :
    zIndices (barMouseDown i cx cy s) = zIndices s ∧ (barMouseDown i cx cy s).z = s.z ∧
      (barMouseDown i cx cy s).windows.length = s.windows.length := by
  unfold barMouseDown
  split_ifs
  · refine ⟨?_, rfl, length_modifyAt _ _ _⟩
    apply map_zIndex_modifyAt
    intro w; rfl
  · exact ⟨rfl, rfl, rfl⟩

/-- Events that neither create nor focus a window leave the counter and all
`zIndex` values as they are. -/
theorem zIndices_step_of_untouched (s : WM) (e : WEvent) (h : touched s e = none) :
    (step s e).z = s.z ∧ zIndices (step s e) = zIndices s := by
  cases e with
  | create r1 r2 => simp [touched] at h
  | windowDown i =>
    have hi : ¬ i < s.windows.length := by
      intro hlt; simp [touched, hlt] at h
    simp [step, windowMouseDown, hi]
  | barDown i cx cy =>
    have hi : ¬ i < s.windows.length := by
      intro hlt; simp [touched, hlt] at h
    simp [step, windowMouseDown, barMouseDown, hi]
  | close i =>
    refine ⟨rfl, ?_⟩
    apply map_zIndex_modifyAt
    intro w; rfl
  | minimise i =>
    refine ⟨rfl, ?_⟩
    apply map_zIndex_modifyAt
    intro w; rfl
  | toggleMaximise i vw vh =>
    exact ⟨rfl, map_zIndex_modifyAt _ (toggleMax_zIndex vw vh) i s.windows⟩
  | move cx cy =>
    refine ⟨rfl, ?_⟩
    simp [step, documentMouseMove, zIndices, List.map_map, Function.comp_def, dragMove_zIndex]
  | up =>
    refine ⟨rfl, ?_⟩
    simp [step, documentMouseUp, zIndices, List.map_map, Function.comp_def]

/-- Events that create or focus window `i` increment the counter and store
the new value in window `i` only. -/
theorem zIndices_step_of_touched (s : WM) (e : WEvent) (i : Nat) (h : touched s e = some i) :
    (step s e).z = s.z + 1 ∧
      ((i = s.windows.length ∧ zIndices (step s e) = zIndices s ++ [s.z + 1]) ∨
       (i < s.windows.length ∧ zIndices (step s e) = (zIndices s).set i (s.z + 1))) := by
  cases e with
  | create r1 r2 =>
    simp only [touched, Option.some.injEq] at h
    refine ⟨rfl, Or.inl ⟨h.symm, ?_⟩⟩
    simp [step, openWindow, makeDraggable, zIndices]
  | windowDown j =>
    have hj : j < s.windows.length := by
      by_contra hlt; simp [touched, hlt] at h
    simp only [touched, hj, if_true, Option.some.injEq] at h
    subst h
    refine ⟨by simp [step, windowMouseDown, hj], Or.inr ⟨hj, ?_⟩⟩
    simp only [step, windowMouseDown, hj, if_true, zIndices]
    exact map_zIndex_modifyAt_set _ _ _
  | barDown j cx cy =>
    have hj : j < s.windows.length := by
      by_contra hlt; simp [touched, hlt] at h
    simp only [touched, hj, if_true, Option.some.injEq] at h
    subst h
    obtain ⟨hz, hzz, hlen⟩ := zIndices_barMouseDown j cx cy s
    have hj2 : j < (barMouseDown j cx cy s).windows.length := by rw [hlen]; exact hj
    refine ⟨by simp [step, windowMouseDown, hj2, hzz], Or.inr ⟨hj, ?_⟩⟩
    rw [← hz, ← hzz]
    simp only [step, windowMouseDown, hj2, if_true, zIndices]
    exact map_zIndex_modifyAt_set _ _ _
  | close i => simp [touched] at h
  | minimise i => simp [touched] at h
  | toggleMaximise i vw vh => simp [touched] at h
  | move cx cy => simp [touched] at h
  | up => simp [touched] at h

theorem zInv_le {z : Int} {zs : List Int} {t : Option Nat} (h : ZInv z zs t) (j : Nat)
    (v : Int) (hv : zs[j]? = some v) : v ≤ z := by
  by_cases ht : t = some j
  · exact le_of_eq ((h.2 j v hv).1 ht)
  · exact le_of_lt ((h.2 j v hv).2 ht)

theorem zInv_append {z : Int} {zs : List Int} {t : Option Nat} (h : ZInv z zs t) :
    ZInv (z + 1) (zs ++ [z + 1]) (some zs.length) := by
  refine ⟨?_, ?_⟩
  · intro i hi
    cases hi
    simp
  · intro j v hj
    rcases Nat.lt_or_ge j zs.length with hlt | hge
    · rw [List.getElem?_append_left hlt] at hj
      have hle := zInv_le h j v hj
      refine ⟨fun he => ?_, fun _ => by omega⟩
      simp only [Option.some.injEq] at he
      omega
    · rw [List.getElem?_append_right hge] at hj
      rcases Nat.eq_or_lt_of_le hge with heq | hgt
      · rw [← heq] at hj
        simp at hj
        exact ⟨fun _ => hj.symm, fun hne => absurd (by rw [heq]) hne⟩
      · have : j - zs.length ≠ 0 := by omega
        obtain ⟨k, hk⟩ := Nat.exists_eq_succ_of_ne_zero this
        rw [hk] at hj
        simp at hj

theorem zInv_set {z : Int} {zs : List Int} {t : Option Nat} (h : ZInv z zs t) {i : Nat}
    (hi : i < zs.length) : ZInv (z + 1) (zs.set i (z + 1)) (some i) := by
  refine ⟨?_, ?_⟩
  · intro k hk
    cases hk
    simpa using hi
  · intro j v hj
    by_cases hji : i = j
    · subst hji
      rw [List.getElem?_set_self hi] at hj
      simp only [Option.some.injEq] at hj
      exact ⟨fun _ => hj.symm, fun hne => absurd rfl hne⟩
    · rw [List.getElem?_set_ne hji] at hj
      have hle := zInv_le h j v hj
      refine ⟨fun he => ?_, fun _ => by omega⟩
      simp only [Option.some.injEq] at he
      exact absurd he hji

/-- One event preserves the stacking invariant. -/
theorem zInv_step {s : WM} {t : Option Nat} (h : ZInv s.z (zIndices s) t) (e : WEvent) :
    ZInv (step s e).z (zIndices (step s e)) ((touched s e).orElse fun _ => t) := by
  cases ht : touched s e with
  | none =>
    obtain ⟨hz, hzs⟩ := zIndices_step_of_untouched s e ht
    rw [hz, hzs]
    exact h
  | some i =>
    obtain ⟨hz, hcase⟩ := zIndices_step_of_touched s e i ht
    rw [hz]
    rcases hcase with ⟨hi, hzs⟩ | ⟨hi, hzs⟩
    · rw [hzs, hi]
      have := zInv_append h
      simpa [zIndices] using this
    · rw [hzs]
      exact zInv_set h (by simpa [zIndices] using hi)

/-- The stacking invariant holds after every run. -/
theorem zInv_run (evs : List WEvent) :
    ∀ (s : WM) (t : Option Nat), ZInv s.z (zIndices s) t →
      ZInv (run s evs).z (zIndices (run s evs)) (lastTouched s t evs) := by
  induction evs with
  | nil => intro s t h; exact h
  | cons e es ih => intro s t h; exact ih _ _ (zInv_step h e)

/-- The stacking invariant holds in the initial state. -/
theorem zInv_init : ZInv WM.init.z (zIndices WM.init) none := by
  refine ⟨fun i hi => (by cases hi), fun j v hj => ?_⟩
  simp [zIndices, WM.init] at hj

/-- C4: the counter starts at 50; every create or focus event sets the
counter to its previous value plus one and stores the new value as the
`zIndex` of the window it touches; after every finite sequence of events
(create, focus, close and all others) from the initial state, the window most
recently created or focused holds the current counter value, and every other
window (live or already closed, so in particular every other live window)
holds a strictly smaller `zIndex`. -/
theorem stack_monotonic (evs : List WEvent) (t : Nat)
    (ht : lastTouched WM.init none evs = some t) :
    WM.init.z = 50 ∧
    (∀ (s : WM) (e : WEvent) (i : Nat), touched s e = some i →
      (step s e).z = s.z + 1 ∧
      ∃ w, (step s e).windows[i]? = some w ∧ w.zIndex = s.z + 1) ∧
    (∃ wt, (run WM.init evs).windows[t]? = some wt ∧
      wt.zIndex = (run WM.init evs).z ∧
      ∀ j wj, j ≠ t → (run WM.init evs).windows[j]? = some wj → wj.zIndex < wt.zIndex) := by
  refine ⟨rfl, ?_, ?_⟩
  · intro s e i hi
    obtain ⟨hz, hcase⟩ := zIndices_step_of_touched s e i hi
    refine ⟨hz, ?_⟩
    have hzi : (zIndices (step s e))[i]? = some (s.z + 1) := by
      rcases hcase with ⟨hi, hzs⟩ | ⟨hi, hzs⟩
      · rw [hzs, hi, List.getElem?_append_right (by simp [zIndices])]
        simp [zIndices]
      · rw [hzs, List.getElem?_set_self (by simpa [zIndices] using hi)]
    simp only [zIndices, List.getElem?_map, Option.map_eq_some'] at hzi
    exact hzi
  · have hinv := zInv_run evs WM.init none zInv_init
    rw [ht] at hinv
    obtain ⟨hlen, hall⟩ := hinv
    have hlt : t < (run WM.init evs).windows.length := by
      simpa [zIndices] using hlen t rfl
    refine ⟨(run WM.init evs).windows[t], List.getElem?_eq_getElem hlt, ?_, ?_⟩
    · have := (hall t (run WM.init evs).windows[t].zIndex
        (by simp [zIndices, List.getElem?_eq_getElem hlt])).1 rfl
      exact this
    · intro j wj hj hwj
      have h1 := (hall t (run WM.init evs).windows[t].zIndex
        (by simp [zIndices, List.getElem?_eq_getElem hlt])).1 rfl
      have h2 := (hall j wj.zIndex (by simp [zIndices, hwj])).2
        (by intro he; simp only [Option.some.injEq] at he; exact hj he.symm)
      rw [h1]
      exact h2

/-- Witness for C4: three windows are created, the first is focused, the
second is closed. -/
theorem stack_monotonic_witness :
    lastTouched WM.init none
      [.create (1/4) (1/4), .create (1/2) (1/2), .create 0 0, .windowDown 0, .close 1] =
        some 0 ∧
    ∃ wt, (run WM.init
      [.create (1/4) (1/4), .create (1/2) (1/2), .create 0 0, .windowDown 0,
        .close 1]).windows[0]? = some wt ∧
      wt.zIndex = (run WM.init
        [.create (1/4) (1/4), .create (1/2) (1/2), .create 0 0, .windowDown 0, .close 1]).z ∧
      ∀ j wj, j ≠ 0 → (run WM.init
        [.create (1/4) (1/4), .create (1/2) (1/2), .create 0 0, .windowDown 0,
          .close 1]).windows[j]? = some wj → wj.zIndex < wt.zIndex :=
  ⟨by decide,
    (stack_monotonic
      [.create (1/4) (1/4), .create (1/2) (1/2), .create 0 0, .windowDown 0, .close 1] 0
      (by decide)).2.2⟩

/-! ## Theorems: dragging -/

theorem countP_dragging_modifyAt (f : Window → Window)
    (hf : ∀ w, (f w).dragging = w.dragging) (i : Nat) (l : List Window) :
    (modifyAt f i l).countP (fun w => w.dragging) = l.countP (fun w => w.dragging) := by
  induction l generalizing i with
  | nil => cases i <;> rfl
  | cons w ws ih =>
    cases i with
    | zero => simp [modifyAt, List.countP_cons, hf]
    | succ i => simp [modifyAt, List.countP_cons, ih]

theorem countP_dragging_modifyAt_le (f : Window → Window) (i : Nat) (l : List Window) :
    (modifyAt f i l).countP (fun w => w.dragging) ≤ l.countP (fun w => w.dragging) + 1 := by
  induction l generalizing i with
  | nil => cases i <;> simp [modifyAt]
  | cons w ws ih =>
    cases i with
    | zero =>
      simp only [modifyAt, List.countP_cons]
      split_ifs <;> omega
    | succ i =>
      have := ih i
      simp only [modifyAt, List.countP_cons]
      omega

theorem countP_dragging_map (f : Window → Window) (hf : ∀ w, (f w).dragging = w.dragging)
    (l : List Window) :
    (l.map f).countP (fun w => w.dragging) = l.countP (fun w => w.dragging) := by
  induction l with
  | nil => rfl
  | cons w ws ih => simp [List.countP_cons, hf, ih]

theorem toggleMax_dragging (vw vh : ℚ) (w : Window) :
    (toggleMax vw vh w).dragging = w.dragging := by
  unfold toggleMax; split_ifs <;> rfl

theorem dragMove_dragging (cx cy : Int) (w : Window) :
    (dragMove cx cy w).dragging = w.dragging := by
  unfold dragMove; split_ifs <;> rfl

theorem draggingCount_windowMouseDown (i : Nat) (s : WM) :
    draggingCount (windowMouseDown i s) = draggingCount s := by
  unfold windowMouseDown
  split_ifs
  · apply countP_dragging_modifyAt
    intro w; rfl
  · rfl

theorem draggingCount_barMouseDown_le (i : Nat) (cx cy : Int) (s : WM) :
    draggingCount (barMouseDown i cx cy s) ≤ draggingCount s + 1 := by
  unfold barMouseDown
  split_ifs
  · exact countP_dragging_modifyAt_le _ i s.windows
  · exact Nat.le_succ _

theorem draggingCount_documentMouseUp (s : WM) : draggingCount (documentMouseUp s) = 0 := by
  simp [draggingCount, documentMouseUp, List.countP_eq_zero]

/-- Every event other than a title-bar press leaves the number of dragging
flags at most what it was; a title-bar press adds at most one; a release
clears them all. -/
theorem draggingCount_step (s : WM) (e : WEvent) :
    draggingCount (step s e) ≤
      match e with
      | .barDown _ _ _ => draggingCount s + 1
      | .up => 0
      | _ => draggingCount s := by
  cases e with
  | create r1 r2 => simp [step, openWindow, makeDraggable, draggingCount]
  | windowDown i => exact le_of_eq (draggingCount_windowMouseDown i s)
  | barDown i cx cy =>
    show draggingCount (windowMouseDown i (barMouseDown i cx cy s)) ≤ _
    rw [draggingCount_windowMouseDown]
    exact draggingCount_barMouseDown_le i cx cy s
  | close i =>
    apply le_of_eq
    apply countP_dragging_modifyAt
    intro w; rfl
  | minimise i =>
    apply le_of_eq
    apply countP_dragging_modifyAt
    intro w; rfl
  | toggleMaximise i vw vh =>
    exact le_of_eq (countP_dragging_modifyAt _ (toggleMax_dragging vw vh) i s.windows)
  | move cx cy =>
    exact le_of_eq (countP_dragging_map _ (dragMove_dragging cx cy) s.windows)
  | up => exact le_of_eq (draggingCount_documentMouseUp s)

/-- Under the single-pointer discipline the number of dragging flags stays
at most one (zero while the button is up). -/
theorem draggingCount_run (evs : List WEvent) :
    ∀ (s : WM) (down : Bool), singlePointer down evs = true →
      draggingCount s ≤ (if down then 1 else 0) → draggingCount (run s evs) ≤ 1 := by
  induction evs with
  | nil =>
    intro s down _ h
    cases down <;> simp at h <;> simp [run] <;> omega
  | cons e es ih =>
    intro s down hsp h
    have hstep := draggingCount_step s e
    cases e with
    | barDown i cx cy =>
      simp only [singlePointer, Bool.and_eq_true, Bool.not_eq_true'] at hsp
      obtain ⟨hd, hrest⟩ := hsp
      subst hd
      simp only [Bool.false_eq_true, if_false] at h
      exact ih _ true hrest (by simp only [if_true]; simp only at hstep; omega)
    | up =>
      simp only [singlePointer] at hsp
      exact ih _ false hsp (by simp only at hstep; simpa using hstep)
    | create r1 r2 =>
      simp only [singlePointer] at hsp
      exact ih _ down hsp (le_trans hstep h)
    | windowDown i =>
      simp only [singlePointer] at hsp
      exact ih _ down hsp (le_trans hstep h)
    | close i =>
      simp only [singlePointer] at hsp
      exact ih _ down hsp (le_trans hstep h)
    | minimise i =>
      simp only [singlePointer] at hsp
      exact ih _ down hsp (le_trans hstep h)
    | toggleMaximise i vw vh =>
      simp only [singlePointer] at hsp
      exact ih _ down hsp (le_trans hstep h)
    | move cx cy =>
      simp only [singlePointer] at hsp
      exact ih _ down hsp (le_trans hstep h)

/-- A pointer-move changes the position of dragging windows only. -/
theorem movedCount_map_dragMove (cx cy : Int) (l : List Window) :
    movedCount l (l.map (dragMove cx cy)) ≤ l.countP (fun w => w.dragging) := by
  induction l with
  | nil => simp [movedCount]
  | cons w ws ih =>
    simp only [List.map_cons, movedCount, List.countP_cons]
    by_cases hd : w.dragging = true
    · simp only [hd, if_true]
      split_ifs <;> omega
    · have hw : dragMove cx cy w = w := by simp [dragMove, hd]
      rw [hw]
      simp only [and_self, if_true]
      omega

/-- C9, amended: in every state reached from the initial state by a sequence
of events that respects the single-pointer discipline (no title-bar press
while the button is down), at most one window has its `dragging` variable
set, so a pointer-move changes the position of at most one window. -/
theorem single_drag_session (evs : List WEvent) (h : singlePointer false evs = true) :
    draggingCount (run WM.init evs) ≤ 1 ∧
    ∀ cx cy : Int,
      movedCount (run WM.init evs).windows
        (documentMouseMove cx cy (run WM.init evs)).windows ≤ 1 := by
  have h1 : draggingCount (run WM.init evs) ≤ 1 :=
    draggingCount_run evs WM.init false h (by decide)
  refine ⟨h1, fun cx cy => ?_⟩
  exact le_trans (movedCount_map_dragMove cx cy (run WM.init evs).windows) h1

/-- Witness for C9: two windows dragged one after the other. -/
theorem single_drag_session_witness :
    singlePointer false
      [.create 0 0, .create (1/2) (1/2), .barDown 0 200 110, .move 210 120, .up,
        .barDown 1 900 170, .move 910 180] = true ∧
    draggingCount (run WM.init
      [.create 0 0, .create (1/2) (1/2), .barDown 0 200 110, .move 210 120, .up,
        .barDown 1 900 170, .move 910 180]) ≤ 1 :=
  ⟨by decide,
    (single_drag_session
      [.create 0 0, .create (1/2) (1/2), .barDown 0 200 110, .move 210 120, .up,
        .barDown 1 900 170, .move 910 180] (by decide)).1⟩

/-- Counterexample for C9 as stated: two title-bar presses on different
windows without a release in between leave two `dragging` variables set, and
the next pointer-move repositions both windows. -/
theorem two_drag_sessions :
    ¬ draggingCount (run WM.init
        [.create 0 0, .create (1/2) (1/2), .barDown 0 200 110, .barDown 1 900 170]) ≤ 1 ∧
    ¬ movedCount
        (run WM.init
          [.create 0 0, .create (1/2) (1/2), .barDown 0 200 110, .barDown 1 900 170]).windows
        (documentMouseMove 910 180 (run WM.init
          [.create 0 0, .create (1/2) (1/2), .barDown 0 200 110,
            .barDown 1 900 170])).windows ≤ 1 := by
  constructor
  · decide
  · simp [run, step, openWindow, makeDraggable, barMouseDown, windowMouseDown, documentMouseMove, dragMove,
      modifyAt, WM.init, parseIntPx, movedCount]
    norm_num

theorem run_append (s : WM) (evs evs2 : List WEvent) :
    run s (evs ++ evs2) = run (run s evs) evs2 := by
  induction evs generalizing s with
  | nil => rfl
  | cons e es ih => exact ih _

/-- The window at index `i` after a title-bar press on it. -/
theorem getElem?_step_barDown (s : WM) (i : Nat) (w : Window) (ax ay : Int)
    (hw : s.windows[i]? = some w) :
    (step s (.barDown i ax ay)).windows[i]? =
      some { w with dragging := true, sx := ax, sy := ay, lx := parseIntPx w.left,
                    ly := parseIntPx w.top, zIndex := s.z + 1 } := by
  have hi : i < s.windows.length := by
    by_contra hge
    rw [List.getElem?_eq_none (by omega)] at hw
    cases hw
  have hi2 : i < (barMouseDown i ax ay s).windows.length := by
    rw [(zIndices_barMouseDown i ax ay s).2.2]; exact hi
  simp only [step, windowMouseDown, hi2, if_true]
  rw [getElem?_modifyAt_self]
  simp only [barMouseDown, hi, if_true]
  rw [getElem?_modifyAt_self, hw]
  rfl

/-- While window `i` is being dragged, pointer-moves keep its drag variables. -/
theorem run_moves_keep (i : Nat) (moves : List (Int × Int)) :
    ∀ (s : WM) (w : Window), s.windows[i]? = some w → w.dragging = true →
      ∃ w1, (run s (moves.map (fun p => WEvent.move p.1 p.2))).windows[i]? = some w1 ∧
        w1.dragging = true ∧ w1.lx = w.lx ∧ w1.ly = w.ly ∧ w1.sx = w.sx ∧ w1.sy = w.sy := by
  induction moves with
  | nil => intro s w hw hd; exact ⟨w, hw, hd, rfl, rfl, rfl, rfl⟩
  | cons p ps ih =>
    intro s w hw hd
    have h1 : (step s (.move p.1 p.2)).windows[i]? = some (dragMove p.1 p.2 w) := by
      simp [step, documentMouseMove, hw]
    have hd1 : (dragMove p.1 p.2 w).dragging = true := by
      rw [dragMove_dragging]; exact hd
    obtain ⟨w1, hw1, hdr, hlx, hly, hsx, hsy⟩ := ih _ _ h1 hd1
    refine ⟨w1, hw1, hdr, ?_, ?_, ?_, ?_⟩
    · rw [hlx]; simp [dragMove, hd]
    · rw [hly]; simp [dragMove, hd]
    · rw [hsx]; simp [dragMove, hd]
    · rw [hsy]; simp [dragMove, hd]

/-- What the drag code computes: after a title-bar press at `(ax, ay)` on a
window at `(ox, oy)` and one or more pointer-moves ending at `(px, py)`, the
window is at `(parseInt(ox) + px - ax, parseInt(oy) + py - ay)`, whatever the
intermediate moves were. -/
theorem drag_position (s : WM) (i : Nat) (w : Window) (ax ay px py : Int)
    (moves : List (Int × Int)) (hw : s.windows[i]? = some w) :
    ∃ w1, (run s (.barDown i ax ay ::
        (moves.map (fun p => WEvent.move p.1 p.2) ++ [.move px py]))).windows[i]? = some w1 ∧
      w1.left = ((parseIntPx w.left + (px - ax) : Int) : ℚ) ∧
      w1.top = ((parseIntPx w.top + (py - ay) : Int) : ℚ) := by
  have h0 := getElem?_step_barDown s i w ax ay hw
  obtain ⟨w1, hw1, hdr, hlx, hly, hsx, hsy⟩ := run_moves_keep i moves _ _ h0 rfl
  refine ⟨dragMove px py w1, ?_, ?_, ?_⟩
  · show (run (step s (.barDown i ax ay)) _).windows[i]? = _
    rw [run_append]
    show ((run (step s (.barDown i ax ay)) _).windows.map (dragMove px py))[i]? = _
    rw [List.getElem?_map, hw1]
    rfl
  · simp only [dragMove, hdr, Bool.not_true, Bool.false_eq_true, if_false, hlx, hsx]
  · simp only [dragMove, hdr, Bool.not_true, Bool.false_eq_true, if_false, hly, hsy]

/-- The integer part of an integer length is that integer. -/
theorem parseIntPx_intCast (n : Int) : parseIntPx (n : ℚ) = n := by
  unfold parseIntPx
  split_ifs
  · exact Int.floor_intCast n
  · have h : (-(n : ℚ)) = ((-n : Int) : ℚ) := by push_cast; ring
    rw [h, Int.floor_intCast]
    omega

/-- The drag delta law on integer origins: if the window is at integer
coordinates `(ox, oy)` at the press, it is at `(ox + px - ax, oy + py - ay)`
after the last move. -/
theorem drag_position_of_int (s : WM) (i : Nat) (w : Window) (ox oy ax ay px py : Int)
    (moves : List (Int × Int)) (hw : s.windows[i]? = some w)
    (hx : w.left = (ox : ℚ)) (hy : w.top = (oy : ℚ)) :
    ∃ w1, (run s (.barDown i ax ay ::
        (moves.map (fun p => WEvent.move p.1 p.2) ++ [.move px py]))).windows[i]? = some w1 ∧
      w1.left = (ox : ℚ) + px - ax ∧ w1.top = (oy : ℚ) + py - ay := by
  obtain ⟨w1, hw1, hl, ht⟩ := drag_position s i w ax ay px py moves hw
  refine ⟨w1, hw1, ?_, ?_⟩
  · rw [hl, hx, parseIntPx_intCast]; push_cast; ring
  · rw [ht, hy, parseIntPx_intCast]; push_cast; ring

/-- C5 fails on the code: a window created with `Math.random() = 1/256` sits
at (150.78125, 100.46875); after a title-bar press at (200, 110) and a move to
(230, 150) the drag code places it at (180, 140), while the drag delta law
demands (180.78125, 140.46875). -/
theorem drag_truncates_fractional_origin :
    (run WM.init [.create (1/256) (1/256)]).windows.map (fun w => (w.left, w.top)) =
      [(150 + 25/32, 100 + 15/32)] ∧
    (run WM.init [.create (1/256) (1/256), .barDown 0 200 110, .move 230 150]).windows.map
      (fun w => (w.left, w.top)) = [(180, 140)] ∧
    ((180 : ℚ), (140 : ℚ)) ≠ (150 + 25/32 + 230 - 200, 100 + 15/32 + 150 - 110) := by
  refine ⟨?_, ?_, ?_⟩
  · simp [run, step, openWindow, makeDraggable, WM.init]
    norm_num
  · simp [run, step, openWindow, makeDraggable, barMouseDown, windowMouseDown, documentMouseMove, dragMove,
      modifyAt, WM.init, parseIntPx]
    norm_num
  · norm_num

end Shell
